import Mathlib

/-!
Verification development for the website-analyzer crawl-and-analyze pipeline
(`src/lib/crawler.ts`).  The per-page content-scoring heuristics are pure
string computations and are embedded directly; the browser, URL parser, and
spell-check collaborators are modelled as explicit environment parameters.
JavaScript float64 arithmetic in the readability formula is idealised as exact
rational arithmetic; JS string `.length` (UTF-16 units) is modelled as
codepoint length, which agrees on all inputs the heuristics distinguish.
-/

namespace Crawler

/-- The characters matched by the JS regex `\s` that the analyzer can
encounter in extracted `innerText` (ASCII whitespace and NBSP). -/
def isJsWs (c : Char) : Bool :=
  c = ' ' || c = '\t' || c = '\n' || c = '\x0d' || c = '\x0b' || c = '\x0c' || c = ' '

/-- Splits a character list at every character satisfying `p`, keeping all
(possibly empty) segments: `splitEvery p "a  b" = ["a", "", "b"]`. -/
def splitEvery (p : Char → Bool) : List Char → List (List Char)
  | [] => [[]]
  | c :: cs =>
    if p c then [] :: splitEvery p cs
    else
      match splitEvery p cs with
      | [] => [[c]]
      | t :: ts => (c :: t) :: ts

/-- Drops empty segments except in final position (the head is handled by the
caller): combined with `splitEvery` this yields the semantics of JS
`String.prototype.split` on a `/[p]+/` regex, where separator *runs* split,
and only a leading or trailing run contributes an empty boundary token. -/
def collapseEmpties : List (List Char) → List (List Char)
  | [] => []
  | [t] => [t]
  | t :: ts => if t.isEmpty then collapseEmpties ts else t :: collapseEmpties ts

/-- JS `s.split(/[p]+/)`: split at maximal runs of characters satisfying `p`;
splitting the empty string yields `[""]`, a leading/trailing run yields an
empty boundary token. -/
def splitRuns (p : Char → Bool) (s : String) : List String :=
  match splitEvery p s.data with
  | [] => []
  | t :: ts => String.mk t :: (collapseEmpties ts).map String.mk

/-- `staticAnalysis.textContent.split(/\s+/)` — the token list `words`. -/
def words (text : String) : List String := splitRuns isJsWs text

/-- `const wordCount = words.length` -/
def wordCount (text : String) : Nat := (words text).length

def isSentencePunct (c : Char) : Bool := c = '.' || c = '!' || c = '?'

/-- `textContent.split(/[.!?]+/).length || 1` -/
def sentenceCount (text : String) : Nat :=
  if (splitRuns isSentencePunct text).length = 0 then 1
  else (splitRuns isSentencePunct text).length

/-- ASCII lowercasing, the fragment of JS `toLowerCase` the heuristics use. -/
def lowerAscii (c : Char) : Char :=
  if 'A' ≤ c && c ≤ 'Z' then Char.ofNat (c.toNat + 32) else c

def jsToLower (s : String) : String := String.mk (s.data.map lowerAscii)

/-- `word.toLowerCase().replace(/[^a-z]/g, '')` -/
def cleanAlpha (w : String) : String :=
  String.mk ((w.data.map lowerAscii).filter (fun c => 'a' ≤ c && c ≤ 'z'))

/-- `.replace(/e$/, '')` — drop one trailing `e`. -/
def dropTrailingE (w : String) : String :=
  if w.data.getLast? = some 'e' then String.mk w.data.dropLast else w

def isVowelY (c : Char) : Bool :=
  c = 'a' || c = 'e' || c = 'i' || c = 'o' || c = 'u' || c = 'y'

/-- `(clean.match(/[aeiouy]+/g) || []).length` — the number of maximal
vowel-cluster runs; the flag records whether a run is currently open. -/
def vowelRunsAux : Bool → List Char → Nat
  | _, [] => 0
  | inRun, c :: cs =>
    if isVowelY c then (if inRun then 0 else 1) + vowelRunsAux true cs
    else vowelRunsAux false cs

def vowelRuns (l : List Char) : Nat := vowelRunsAux false l

/-- Per-word syllable estimate: lowercase, strip non-alpha, drop a trailing
`e`, count vowel runs, minimum 1 (`... || 1`). -/
def syllablesOfWord (w : String) : Nat :=
  if vowelRuns (dropTrailingE (cleanAlpha w)).data = 0 then 1
  else vowelRuns (dropTrailingE (cleanAlpha w)).data

def syllableCount (text : String) : Nat :=
  ((words text).map syllablesOfWord).sum

/-- `Math.round` — round half toward positive infinity. -/
def jsRound (q : ℚ) : ℤ := ⌊q + 1 / 2⌋

/-- Flesch Reading Ease as computed by the source (float64 idealised as ℚ):
`Math.min(100, Math.max(0, Math.round(206.835 - 1.015*avgSentenceLength -
84.6*avgSyllablesPerWord)))` where `avgSentenceLength = wordCount/sentenceCount`
and `avgSyllablesPerWord = syllableCount/wordCount || 1`. -/
def readabilityScore (text : String) : ℤ :=
  min 100 (max 0 (jsRound (206835 / 1000
    - 1015 / 1000 * ((wordCount text : ℚ) / (sentenceCount text : ℚ))
    - 846 / 10 * (if (syllableCount text : ℚ) / (wordCount text : ℚ) = 0 then 1
        else (syllableCount text : ℚ) / (wordCount text : ℚ)))))

/- Basic facts about the tokenizer. -/

theorem splitEvery_ne_nil (p : Char → Bool) (l : List Char) :
    splitEvery p l ≠ [] := by
  induction l with
  | nil => simp [splitEvery]
  | cons c cs ih =>
    rw [splitEvery]
    by_cases h : p c
    · simp [h]
    · simp only [h, Bool.false_eq_true, if_false]
      cases hs : splitEvery p cs <;> simp

theorem splitRuns_length_pos (p : Char → Bool) (s : String) :
    1 ≤ (splitRuns p s).length := by
  unfold splitRuns
  cases hs : splitEvery p s.data with
  | nil => exact absurd hs (splitEvery_ne_nil p s.data)
  | cons t ts => simp

theorem wordCount_pos (text : String) : 1 ≤ wordCount text :=
  splitRuns_length_pos isJsWs text

theorem sentenceCount_pos (text : String) : 1 ≤ sentenceCount text := by
  unfold sentenceCount
  split <;> omega

theorem syllablesOfWord_pos (w : String) : 1 ≤ syllablesOfWord w := by
  unfold syllablesOfWord
  split <;> omega

theorem syllableCount_ge_wordCount (text : String) :
    wordCount text ≤ syllableCount text := by
  unfold wordCount syllableCount
  induction words text with
  | nil => simp
  | cons w ws ih =>
    simp only [List.length_cons, List.map_cons, List.sum_cons]
    have := syllablesOfWord_pos w
    omega

theorem words_empty : words "" = [""] := rfl

/-! ### Long-word and typo detection (post-processing loop over `words`) -/

/-- `word.replace(/[^\w'-]/g, '')` — keep word characters, apostrophes,
hyphens. -/
def isTypoKeptChar (c : Char) : Bool :=
  ('a' ≤ c && c ≤ 'z') || ('A' ≤ c && c ≤ 'Z') || ('0' ≤ c && c ≤ '9') ||
    c = '_' || c = Char.ofNat 39 || c = '-'

def cleanWordTypo (w : String) : String :=
  String.mk (w.data.filter isTypoKeptChar)

/-- `/^[a-zA-Z]+$/` -/
def isAlphaToken (w : String) : Bool :=
  !w.data.isEmpty && w.data.all (fun c => ('a' ≤ c && c ≤ 'z') || ('A' ≤ c && c ≤ 'Z'))

/-- `if (cleanWord.length > 20) longWords++`, after `if (!cleanWord) continue`. -/
def longWords (text : String) : Nat :=
  ((words text).filter
    (fun w => !(cleanWordTypo w).data.isEmpty && 20 < (cleanWordTypo w).length)).length

/-- Deduplication keeping the first occurrence, in encounter order — the
iteration order of a JS `Set` built by repeated `add`. -/
def dedupKeepFirst : List String → List String
  | [] => []
  | w :: ws => w :: (dedupKeepFirst ws).filter (fun x => x ≠ w)

/-- The tokens added to the `possibleTypos` set: clean nonempty, spell-check
present, alphabetic-only, longer than 3, flagged incorrect; the report keeps
the first 5 (`Array.from(possibleTypos).slice(0, 5)`). -/
def typoFlagged (spell : Option (String → Bool)) (text : String) : List String :=
  (words text).filterMap fun w =>
    let c := cleanWordTypo w
    match spell with
    | none => none
    | some correct =>
      if !c.data.isEmpty && isAlphaToken c && 3 < c.length && !correct c then some c
      else none

def possibleTypos (spell : Option (String → Bool)) (text : String) : List String :=
  (dedupKeepFirst (typoFlagged spell text)).take 5

/-! ### Keyword extraction -/

def stopWords : List String :=
  ["the", "be", "to", "of", "and", "a", "in", "that", "have", "i", "it", "for",
   "not", "on", "with", "he", "as", "you", "do", "at", "this", "but", "his",
   "by", "from", "they", "we", "say", "her", "she", "or", "an", "will", "my",
   "one", "all", "would", "there", "their", "what", "so", "up", "out", "if",
   "about", "who", "get", "which", "go", "me", "is", "are", "was", "were"]

/-- The cleaned tokens that enter `wordFreq`: lowercase, strip non-alpha,
keep only tokens longer than 3 characters and not stop words. -/
def keywordTokens (text : String) : List String :=
  (words text).filterMap fun w =>
    if 3 < (cleanAlpha w).length && !(stopWords.contains (cleanAlpha w))
    then some (cleanAlpha w) else none

/-- A value stored in the `wordFreq` object at run time.  Its TypeScript
annotation is `Record<string, number>`, but the update below can also store a
string (see `jsNextVal`), so the model keeps both. -/
inductive JsVal where
  | num (n : Nat)
  | str (s : String)
deriving DecidableEq, Repr

/-- `Object.prototype.constructor.toString()` — the string coercion of the
inherited `Object` constructor function. -/
def objectCtorStr : String := "function Object() \x7b [native code] \x7d"

/-- `(wordFreq[clean] || 0) + 1` under actual JS semantics.  `wordFreq` is a
plain object literal, so a property read falls back to `Object.prototype`.
The only inherited member whose name is pure lowercase a–z — the only shape a
cleaned token can have — is `constructor`; every other member name contains
an uppercase letter or an underscore and is unreachable.  So: an own numeric
property is truthy unless 0 and increments; a missing key other than
`constructor` reads `undefined` (falsy) and yields 1; the key `constructor`
reads the inherited constructor function, which is truthy, making `+ 1` a
string concatenation with the function's string coercion; an own string
property (the result of that) is truthy when nonempty and concatenates
again. -/
def jsNextVal (own : Option JsVal) (k : String) : JsVal :=
  match own with
  | some (JsVal.num n) => if n = 0 then JsVal.num 1 else JsVal.num (n + 1)
  | some (JsVal.str s) =>
    if s.data.isEmpty then JsVal.num 1 else JsVal.str (s ++ "1")
  | none =>
    if k = "constructor" then JsVal.str (objectCtorStr ++ "1") else JsVal.num 1

/-- `wordFreq[clean] = (wordFreq[clean] || 0) + 1` on the insertion-ordered
own-property record (string keys keep insertion order in `Object.entries`,
and assignment to `constructor` creates an own data property since the
inherited one is a data property): a first occurrence appends the key, later
occurrences update in place. -/
def jsBump : List (String × JsVal) → String → List (String × JsVal)
  | [], k => [(k, jsNextVal none k)]
  | (k', v) :: rest, k =>
    if k' = k then (k', jsNextVal (some v) k) :: rest
    else (k', v) :: jsBump rest k

/-- The `wordFreq` record the program actually builds over the eligible
cleaned tokens. -/
def jsWordFreq (text : String) : List (String × JsVal) :=
  (keywordTokens text).foldl jsBump []

/-- The ideal counting update described by the claim (and intended by the
code's `Record<string, number>` annotation): first occurrence appends at
count 1, later occurrences increment.  The source-faithful update is
`jsBump`; the two agree except on the key `constructor` (proved below). -/
def bumpFreq : List (String × Nat) → String → List (String × Nat)
  | [], w => [(w, 1)]
  | (w', c) :: rest, w =>
    if w' = w then (w', c + 1) :: rest else (w', c) :: bumpFreq rest w

/-- The ideal insertion-ordered count map of the eligible tokens — the
claim's "counting frequencies".  The program's actual record is `jsWordFreq`,
which coincides with this map (with numeric values) exactly when
`constructor` is not among the tokens. -/
def freqPairs (text : String) : List (String × Nat) :=
  (keywordTokens text).foldl bumpFreq []

/-- The comparator `([, a], [, b]) => b - a`: descending count. -/
def countGe (a b : String × Nat) : Prop := b.2 ≤ a.2

instance : DecidableRel countGe := fun a b => Nat.decLe b.2 a.2

instance : IsTotal (String × Nat) countGe := ⟨fun a b => le_total b.2 a.2⟩

instance : IsTrans (String × Nat) countGe := ⟨fun _ _ _ h1 h2 => le_trans h2 h1⟩

/-- `Object.entries(wordFreq).sort(([, a], [, b]) => b - a)` — JS
`Array.prototype.sort` is stable, and a stable sort by a total preorder has a
unique result, realised here by insertion sort. -/
def sortByCount (l : List (String × Nat)) : List (String × Nat) :=
  List.insertionSort countGe l

structure Keyword where
  word : String
  count : Nat
deriving DecidableEq, Repr

/-- `.slice(0, 5).map(([word, count]) => ({ word, count }))`, on the ideal
count map: this matches the program exactly when the token `constructor`
does not occur (otherwise the program's entry for it carries a garbage
string, not a count — see the counterexample below). -/
def keywords (text : String) : List Keyword :=
  ((sortByCount (freqPairs text)).take 5).map fun p => ⟨p.1, p.2⟩

/-! ### Frequency-map lemmas -/

theorem jsBump_eq_bumpFreq (acc : List (String × Nat)) (k : String)
    (hk : k ≠ "constructor") :
    jsBump (acc.map (fun p => (p.1, JsVal.num p.2))) k =
      (bumpFreq acc k).map (fun p => (p.1, JsVal.num p.2)) := by
  induction acc with
  | nil => simp [jsBump, bumpFreq, jsNextVal, hk]
  | cons p rest ih =>
    obtain ⟨k', n⟩ := p
    by_cases hkk : k' = k
    · cases n <;> simp [jsBump, bumpFreq, jsNextVal, hkk]
    · simp [jsBump, bumpFreq, hkk, ih]

theorem foldl_jsBump_eq (ts : List String) :
    ∀ acc : List (String × Nat), (∀ t ∈ ts, t ≠ "constructor") →
      ts.foldl jsBump (acc.map (fun p => (p.1, JsVal.num p.2))) =
        (ts.foldl bumpFreq acc).map (fun p => (p.1, JsVal.num p.2)) := by
  induction ts with
  | nil =>
    intro acc _
    rfl
  | cons t ts ih =>
    intro acc hts
    simp only [List.foldl_cons]
    rw [jsBump_eq_bumpFreq acc t (hts t (List.mem_cons_self t ts))]
    exact ih _ (fun x hx => hts x (List.mem_cons_of_mem _ hx))

/-- Away from the inherited key `constructor`, the record the program builds
is the ideal count map with numeric values. -/
theorem jsWordFreq_eq_freqPairs (text : String)
    (hcon : "constructor" ∉ keywordTokens text) :
    jsWordFreq text = (freqPairs text).map (fun p => (p.1, JsVal.num p.2)) := by
  unfold jsWordFreq freqPairs
  have h := foldl_jsBump_eq (keywordTokens text) []
    (fun t ht => fun he => hcon (he ▸ ht))
  simpa using h

def keysOf (l : List (String × Nat)) : List String := l.map Prod.fst

def lookupCount : List (String × Nat) → String → Nat
  | [], _ => 0
  | (k, c) :: rest, v => if k = v then c else lookupCount rest v

theorem lookupCount_bumpFreq (acc : List (String × Nat)) (w v : String) :
    lookupCount (bumpFreq acc w) v =
      if v = w then lookupCount acc v + 1 else lookupCount acc v := by
  induction acc with
  | nil =>
    simp only [bumpFreq, lookupCount]
    by_cases h : v = w
    · rw [if_pos h.symm, if_pos h]
    · rw [if_neg (fun h' => h h'.symm), if_neg h]
  | cons p rest ih =>
    obtain ⟨k, c⟩ := p
    simp only [bumpFreq]
    by_cases hk : k = w
    · rw [if_pos hk]
      simp only [lookupCount]
      by_cases hv : k = v
      · have hvw : v = w := hv ▸ hk
        rw [if_pos hv, if_pos hv, if_pos hvw]
      · have hvw : ¬v = w := fun h => hv (hk.trans h.symm)
        rw [if_neg hv, if_neg hv, if_neg hvw]
    · rw [if_neg hk]
      simp only [lookupCount, ih]
      by_cases hv : k = v
      · have hvw : ¬v = w := fun h => hk (hv.trans h)
        simp [hv, hvw]
      · by_cases hvw : v = w <;> simp [hv, hvw, hk]

theorem keysOf_bumpFreq (acc : List (String × Nat)) (w : String) :
    keysOf (bumpFreq acc w) =
      if w ∈ keysOf acc then keysOf acc else keysOf acc ++ [w] := by
  induction acc with
  | nil => simp [bumpFreq, keysOf]
  | cons p rest ih =>
    obtain ⟨k, c⟩ := p
    by_cases hk : k = w
    · subst hk
      simp [bumpFreq, keysOf]
    · simp only [bumpFreq, hk, if_false, keysOf, List.map_cons, List.mem_cons]
      by_cases hmem : w ∈ keysOf rest <;>
        simp_all [keysOf, Ne.symm hk]

theorem lookupCount_foldl_bumpFreq (ts : List String) (acc : List (String × Nat))
    (v : String) :
    lookupCount (ts.foldl bumpFreq acc) v = lookupCount acc v + ts.count v := by
  induction ts generalizing acc with
  | nil => simp
  | cons t ts ih =>
    simp only [List.foldl_cons, ih, lookupCount_bumpFreq, List.count_cons]
    by_cases h : v = t
    · simp only [h, if_true, beq_self_eq_true]
      omega
    · have hb : (v == t) = false := by simpa using h
      have hb2 : (t == v) = false := by
        simpa using fun he => h he.symm
      simp [h, hb, hb2]

theorem mem_lookupCount {l : List (String × Nat)} (hn : (keysOf l).Nodup)
    {p : String × Nat} (hp : p ∈ l) : lookupCount l p.1 = p.2 := by
  induction l with
  | nil => cases hp
  | cons q rest ih =>
    obtain ⟨k, c⟩ := q
    simp only [keysOf, List.map_cons, List.nodup_cons] at hn
    rcases List.mem_cons.mp hp with h | h
    · subst h
      simp [lookupCount]
    · have hk : k ≠ p.1 := by
        intro he
        exact hn.1 (he ▸ (List.mem_map.mpr ⟨p, h, rfl⟩))
      simpa [lookupCount, hk] using ih hn.2 h

theorem dedupKeepFirst_nodup (l : List String) : (dedupKeepFirst l).Nodup := by
  induction l with
  | nil => simp [dedupKeepFirst]
  | cons w ws ih =>
    simp only [dedupKeepFirst, List.nodup_cons]
    constructor
    · intro hmem
      have := List.of_mem_filter hmem
      simp at this
    · exact ih.filter _

theorem filter_dedupKeepFirst (p : String → Bool) (l : List String) :
    (dedupKeepFirst l).filter p = dedupKeepFirst (l.filter p) := by
  induction l with
  | nil => rfl
  | cons w ws ih =>
    simp only [dedupKeepFirst, List.filter_cons]
    by_cases hw : p w = true
    · rw [if_pos hw, if_pos hw]
      simp only [dedupKeepFirst]
      congr 1
      rw [← ih, List.filter_comm]
    · rw [if_neg hw, if_neg hw, ← ih, List.filter_comm]
      apply List.filter_eq_self.mpr
      intro a ha
      have hpa : p a = true := List.of_mem_filter ha
      have hne : a ≠ w := fun he => hw (he ▸ hpa)
      simpa using hne

theorem keysOf_foldl_bumpFreq (ts : List String) (acc : List (String × Nat)) :
    keysOf (ts.foldl bumpFreq acc) =
      keysOf acc ++ dedupKeepFirst (ts.filter fun t => !(keysOf acc).contains t) := by
  induction ts generalizing acc with
  | nil => simp [dedupKeepFirst]
  | cons t ts ih =>
    simp only [List.foldl_cons]
    by_cases hmem : t ∈ keysOf acc
    · rw [ih, keysOf_bumpFreq, if_pos hmem, List.filter_cons]
      have hc : ((keysOf acc).contains t) = true := by simpa using hmem
      simp [hc, hmem]
    · rw [ih, keysOf_bumpFreq, if_neg hmem, List.filter_cons]
      have hc : ((keysOf acc).contains t) = false := by simpa using hmem
      simp only [hc, Bool.not_false, if_true]
      rw [List.append_assoc, List.singleton_append]
      congr 1
      conv_rhs => rw [dedupKeepFirst]
      congr 1
      rw [filter_dedupKeepFirst]
      congr 1
      rw [List.filter_filter]
      apply List.filter_congr
      intro x _
      by_cases hx : x = t
      · subst hx
        simp [hc]
      · by_cases hxa : x ∈ keysOf acc <;> simp [hx, hxa]

theorem freqPairs_keys (text : String) :
    keysOf (freqPairs text) = dedupKeepFirst (keywordTokens text) := by
  unfold freqPairs
  rw [keysOf_foldl_bumpFreq]
  simp [keysOf]

theorem freqPairs_keys_nodup (text : String) : (keysOf (freqPairs text)).Nodup := by
  rw [freqPairs_keys]
  exact dedupKeepFirst_nodup _

theorem freqPairs_count (text : String) :
    ∀ p ∈ freqPairs text, p.2 = (keywordTokens text).count p.1 := by
  intro p hp
  have h1 := mem_lookupCount (freqPairs_keys_nodup text) hp
  have h2 := lookupCount_foldl_bumpFreq (keywordTokens text) [] p.1
  unfold freqPairs at h1
  rw [h2] at h1
  simpa [lookupCount] using h1.symm

/-! ### Stability of the count sort -/

theorem filter_orderedInsert (c : Nat) (p : String × Nat)
    (l : List (String × Nat)) :
    (List.orderedInsert countGe p l).filter (fun q => q.2 = c) =
      if p.2 = c then p :: l.filter (fun q => q.2 = c)
      else l.filter (fun q => q.2 = c) := by
  induction l with
  | nil => by_cases h : p.2 = c <;> simp [List.orderedInsert, h]
  | cons b bs ih =>
    simp only [List.orderedInsert]
    by_cases hr : countGe p b
    · rw [if_pos hr]
      by_cases h : p.2 = c <;> simp [List.filter_cons, h]
    · rw [if_neg hr]
      have hb : p.2 < b.2 := lt_of_not_le hr
      by_cases hbc : b.2 = c
      · have hpc : ¬p.2 = c := by omega
        simp [List.filter_cons, hbc, hpc, ih]
      · by_cases hpc : p.2 = c <;> simp [List.filter_cons, hbc, hpc, ih]

theorem filter_sortByCount (c : Nat) (l : List (String × Nat)) :
    (sortByCount l).filter (fun q => q.2 = c) = l.filter (fun q => q.2 = c) := by
  induction l with
  | nil => rfl
  | cons p ps ih =>
    show (List.orderedInsert countGe p (List.insertionSort countGe ps)).filter _ = _
    rw [filter_orderedInsert]
    have ih' : (List.insertionSort countGe ps).filter (fun q => decide (q.2 = c)) =
        ps.filter (fun q => decide (q.2 = c)) := ih
    by_cases h : p.2 = c
    · rw [if_pos h, ih', List.filter_cons]
      simp [h]
    · rw [if_neg h, ih', List.filter_cons]
      simp [h]

theorem sortByCount_perm (l : List (String × Nat)) : List.Perm (sortByCount l) l :=
  List.perm_insertionSort countGe l

theorem sortByCount_sorted (l : List (String × Nat)) :
    (sortByCount l).Sorted countGe :=
  List.sorted_insertionSort countGe l

/-! ### Claim theorems for the scoring heuristics -/

/-- C7: `readabilityScore` equals the Flesch Reading Ease formula
`206.835 − 1.015·(wordCount/sentenceCount) − 84.6·(syllableCount/wordCount)`,
rounded and clamped into [0,100]; `sentenceCount ≥ 1`, every word contributes
at least one syllable, and both divisions have positive denominators even for
a single-word, single-sentence input. -/
theorem readabilityScore_flesch (text : String) :
    readabilityScore text =
      min 100 (max 0 (jsRound (206835 / 1000
        - 1015 / 1000 * ((wordCount text : ℚ) / (sentenceCount text : ℚ))
        - 846 / 10 * ((syllableCount text : ℚ) / (wordCount text : ℚ))))) ∧
    1 ≤ sentenceCount text ∧ 1 ≤ wordCount text ∧
    (∀ w ∈ words text, 1 ≤ syllablesOfWord w) ∧
    wordCount text ≤ syllableCount text ∧
    0 ≤ readabilityScore text ∧ readabilityScore text ≤ 100 := by
  have hW := wordCount_pos text
  have hS := sentenceCount_pos text
  have hY := syllableCount_ge_wordCount text
  have hWQ : (0 : ℚ) < (wordCount text : ℚ) := by exact_mod_cast hW
  have hYQ : (0 : ℚ) < (syllableCount text : ℚ) := by
    have : 1 ≤ syllableCount text := le_trans hW hY
    exact_mod_cast this
  have hratio : (syllableCount text : ℚ) / (wordCount text : ℚ) ≠ 0 :=
    ne_of_gt (div_pos hYQ hWQ)
  refine ⟨?_, hS, hW, fun w _ => syllablesOfWord_pos w, hY, ?_, ?_⟩
  · unfold readabilityScore
    rw [if_neg hratio]
  · exact le_min (by norm_num) (le_max_left 0 _)
  · exact min_le_left _ _

/-- C9 (amended): for every body text none of whose eligible cleaned tokens
is `constructor`, the frequency record the program builds is the ideal
insertion-ordered count map, and the `keywords` output is the first five
entries of its stable descending-count sort; frequency-map keys are the
eligible tokens deduplicated in first-encounter order, each paired with its
exact occurrence count; the sort is non-increasing in count and, for each
fixed count, preserves the first-encounter order (stability).  (As originally
stated the claim fails when the token `constructor` occurs: the plain
`wordFreq` object inherits `Object.prototype`, so that entry's value is a
string concatenation with the inherited constructor function, not a count —
see the counterexample.) -/
theorem keywords_extraction (text : String)
    (hcon : "constructor" ∉ keywordTokens text) :
    jsWordFreq text = (freqPairs text).map (fun p => (p.1, JsVal.num p.2)) ∧
    keywords text = ((sortByCount (freqPairs text)).take 5).map
      (fun p => ⟨p.1, p.2⟩) ∧
    keysOf (freqPairs text) = dedupKeepFirst (keywordTokens text) ∧
    (∀ p ∈ sortByCount (freqPairs text),
      p.2 = (keywordTokens text).count p.1) ∧
    (keysOf (sortByCount (freqPairs text))).Nodup ∧
    (sortByCount (freqPairs text)).Sorted countGe ∧
    (∀ c : Nat, (sortByCount (freqPairs text)).filter (fun q => q.2 = c) =
      (freqPairs text).filter (fun q => q.2 = c)) ∧
    (keywords text).length = min 5 (freqPairs text).length := by
  refine ⟨jsWordFreq_eq_freqPairs text hcon, rfl, freqPairs_keys text, ?_, ?_,
    sortByCount_sorted _, fun c => filter_sortByCount c _, ?_⟩
  · intro p hp
    exact freqPairs_count text p ((sortByCount_perm _).subset hp)
  · have hperm : List.Perm (keysOf (sortByCount (freqPairs text)))
        (keysOf (freqPairs text)) := (sortByCount_perm _).map Prod.fst
    exact hperm.nodup_iff.mpr (freqPairs_keys_nodup text)
  · simp [keywords, (sortByCount_perm (freqPairs text)).length_eq, Nat.min_comm]

/-- Counterexample to C9 as stated: on a body text containing the ordinary
token `constructor`, the program's frequency record pairs it with the string
concatenation of the inherited `Object` constructor (`Object.prototype` is
reachable through the plain object's property read), not with its occurrence
count 2 as the described pipeline computes. -/
theorem keywords_constructor_counterexample :
    jsWordFreq "constructor constructor" =
      [("constructor", JsVal.str (objectCtorStr ++ "11"))] ∧
    freqPairs "constructor constructor" = [("constructor", 2)] ∧
    (∀ n : Nat, JsVal.str (objectCtorStr ++ "11") ≠ JsVal.num n) ∧
    jsWordFreq "constructor constructor" ≠
      (freqPairs "constructor constructor").map
        (fun p => (p.1, JsVal.num p.2)) := by
  refine ⟨by decide, by decide, fun n h => JsVal.noConfusion h, ?_⟩
  intro h
  rw [show freqPairs "constructor constructor" = [("constructor", 2)]
    from by decide] at h
  rw [show jsWordFreq "constructor constructor" =
    [("constructor", JsVal.str (objectCtorStr ++ "11"))] from by decide] at h
  simp at h

/-- Witness for C9 on a text free of the token `constructor`: the program's
record equals the ideal count map and the keywords are the counted top
entries. -/
theorem keywords_extraction_witness :
    jsWordFreq "proof proof lemma" =
      (freqPairs "proof proof lemma").map (fun p => (p.1, JsVal.num p.2)) ∧
    keywords "proof proof lemma" = [⟨"proof", 2⟩, ⟨"lemma", 1⟩] :=
  ⟨(keywords_extraction "proof proof lemma" (by decide)).1, by decide⟩

/-- C10: `wordCount` is at least 1 for every body text because the raw
whitespace split keeps empty boundary tokens (splitting the empty string
yields one empty token); those empty tokens are skipped by the long-word and
typo checks but still counted, keeping the syllables-per-word denominator
nonzero. -/
theorem wordCount_counts_empty_tokens (text : String) :
    1 ≤ wordCount text ∧
    words "" = [""] ∧ wordCount "" = 1 ∧
    ((wordCount text : ℚ) ≠ 0) ∧
    (∀ spell, "" ∉ typoFlagged spell text) ∧
    longWords text = ((words text).filter
      (fun w => !(cleanWordTypo w).data.isEmpty &&
        20 < (cleanWordTypo w).length)).length := by
  refine ⟨wordCount_pos text, rfl, rfl, ?_, ?_, rfl⟩
  · have hW := wordCount_pos text
    have : (0 : ℚ) < (wordCount text : ℚ) := by exact_mod_cast hW
    exact ne_of_gt this
  · intro spell h
    unfold typoFlagged at h
    rw [List.mem_filterMap] at h
    obtain ⟨w, _, hw⟩ := h
    cases spell with
    | none => simp at hw
    | some f =>
      dsimp only at hw
      by_cases hc : (!(cleanWordTypo w).data.isEmpty && isAlphaToken (cleanWordTypo w)
          && decide (3 < (cleanWordTypo w).length) && !f (cleanWordTypo w)) = true
      · rw [if_pos hc] at hw
        have hempty : cleanWordTypo w = "" := Option.some.inj hw
        rw [hempty] at hc
        simp at hc
      · rw [if_neg hc] at hw
        exact Option.noConfusion hw

/-! ### Static extraction facts and the SEO / AI scores -/

/-- JS truthiness of a string: nonempty. -/
def jsTruthy (s : String) : Bool := !s.data.isEmpty

/-- JS truthiness of `string | null`. -/
def jsTruthyOpt : Option String → Bool
  | none => false
  | some s => !s.data.isEmpty

structure Heading where
  tag : String
  text : String
deriving DecidableEq, Repr

/-- `needle` occurs at the start of `hay` (JS `String.prototype.startsWith`). -/
def leadMatch : List Char → List Char → Bool
  | [], _ => true
  | _ :: _, [] => false
  | a :: as, b :: bs => a = b && leadMatch as bs

/-- `needle` occurs somewhere in `hay` (JS `String.prototype.includes`). -/
def hasSubSeq (needle : List Char) : List Char → Bool
  | [] => needle.isEmpty
  | c :: cs => leadMatch needle (c :: cs) || hasSubSeq needle cs

/-- The record returned by the single static `page.evaluate` pass: titles,
meta description (with Open Graph fallback), first H1, UX counts, body text,
links, schema facts, headings, author/date heuristics. These are facts read
off the rendered DOM, so they are inputs to the model. -/
structure StaticAnalysis where
  title : String
  metaDesc : String
  h1 : Option String
  missingAltTags : Nat
  emptyLinks : Nat
  hasViewport : Bool
  h1Count : Nat
  imagesMissingDimensions : Nat
  textContent : String
  links : List String
  hasSchema : Bool
  structureCount : Nat
  paragraphCount : Nat
  headings : List Heading
  longParagraphs : Nat
  htmlSize : Nat
  schemaTypes : List String
  hasAuthor : Bool
  hasDate : Bool
deriving Repr

/-- `Math.min(100, 50 + structureCount * 5)` -/
def structureScore (sa : StaticAnalysis) : Nat :=
  min 100 (50 + sa.structureCount * 5)

/-- The five additive base contributions of the SEO score. -/
def seoScoreBase (sa : StaticAnalysis) (wc : Nat) : Nat :=
  (if jsTruthy sa.title && 10 ≤ sa.title.length && sa.title.length ≤ 60 then 20
   else if jsTruthy sa.title then 10 else 0) +
  (if jsTruthy sa.metaDesc && 50 ≤ sa.metaDesc.length && sa.metaDesc.length ≤ 160
   then 20 else if jsTruthy sa.metaDesc then 10 else 0) +
  (if jsTruthyOpt sa.h1 then 20 else 0) +
  (if sa.missingAltTags = 0 then 20 else 0) +
  (if 300 < wc then 20 else 0)

/-- `keywords.filter(k => headings.some(h =>
h.text.toLowerCase().includes(k.word))).length` -/
def keywordsInHeadings (kws : List Keyword) (headings : List Heading) : Nat :=
  (kws.filter fun k =>
    headings.any fun h => hasSubSeq k.word.data (jsToLower h.text).data).length

/-- `parseInt(h.tag.substring(1))` on tags of the form `H1`…`H6` (the only
tags the `h1, h2, h3, h4, h5, h6` selector produces). -/
def headingLevel (tag : String) : Nat :=
  match tag.data with
  | _ :: c :: _ => if '0' ≤ c && c ≤ '9' then c.toNat - '0'.toNat else 0
  | _ => 0

/-- The heading-hierarchy loop: `if (level > previousLevel + 1)
hierarchyIssues++`, threading `previousLevel`. -/
def hierarchyIssuesAux : Nat → List Heading → Nat
  | _, [] => 0
  | prev, h :: hs =>
    (if prev + 1 < headingLevel h.tag then 1 else 0) +
      hierarchyIssuesAux (headingLevel h.tag) hs

def hierarchyIssues (hs : List Heading) : Nat := hierarchyIssuesAux 0 hs

/-- The full SEO score: five additive base contributions, then the
keyword-in-heading bonus and the heading-hierarchy bonus, each applied as
`seoScore = Math.min(100, seoScore + 10)`. -/
def seoScore (sa : StaticAnalysis) (wc : Nat) (kws : List Keyword) : Nat :=
  let base := seoScoreBase sa wc
  let s1 := if 0 < keywordsInHeadings kws sa.headings then min 100 (base + 10)
    else base
  if hierarchyIssues sa.headings = 0 && 0 < sa.headings.length
  then min 100 (s1 + 10) else s1

def questionWords : List String :=
  ["who", "what", "where", "when", "why", "how", "can", "does", "is", "are"]

/-- A heading counts as a question if its lowercased text starts with an
interrogative word or ends with a question mark. -/
def isQuestionHeading (h : Heading) : Bool :=
  questionWords.any (fun w => leadMatch w.data (jsToLower h.text).data) ||
    (match (jsToLower h.text).data.getLast? with
     | some c => c = '?'
     | none => false)

def questionHeadings (hs : List Heading) : Nat :=
  (hs.filter isQuestionHeading).length

def valuableSchemas : List String :=
  ["Article", "Product", "FAQPage", "Organization", "BreadcrumbList",
   "Recipe", "Review"]

/-- AI optimisation score: schema quality (up to 40), structure/readability
(up to 30), question headings (15), E-E-A-T signals (15), capped at 100. -/
def aiScore (sa : StaticAnalysis) (readability : ℤ) : Nat :=
  min 100
    ((if sa.hasSchema then
        10 + (if sa.schemaTypes.any (fun t => valuableSchemas.contains t)
              then 30 else 10)
      else 0) +
     (if 70 < structureScore sa then 15 else 0) +
     (if 60 < readability then 15 else 0) +
     (if 0 < questionHeadings sa.headings then 15 else 0) +
     (if sa.hasAuthor then 10 else 0) +
     (if sa.hasDate then 5 else 0))

/-- `htmlSize > 0 ? textContent.length / htmlSize : 0` -/
def textToCodeRatio (sa : StaticAnalysis) : ℚ :=
  if 0 < sa.htmlSize then (sa.textContent.length : ℚ) / (sa.htmlSize : ℚ) else 0

/-- C8: a page whose extracted facts satisfy the five base conditions (title
length in [10,60], meta description length in [50,160], an H1 present, zero
missing alt attributes, more than 300 words) scores at least 80, whatever the
keywords and heading bonuses contribute. -/
theorem seoScore_ge_80 (sa : StaticAnalysis) (wc : Nat) (kws : List Keyword)
    (ht : 10 ≤ sa.title.length ∧ sa.title.length ≤ 60)
    (hm : 50 ≤ sa.metaDesc.length ∧ sa.metaDesc.length ≤ 160)
    (hh : jsTruthyOpt sa.h1 = true)
    (ha : sa.missingAltTags = 0)
    (hw : 300 < wc) :
    80 ≤ seoScore sa wc kws := by
  have htruthy : jsTruthy sa.title = true := by
    have : sa.title.data ≠ [] := by
      intro he
      have : sa.title.length = 0 := by
        show sa.title.data.length = 0
        simp [he]
      omega
    simpa [jsTruthy] using this
  have hmtruthy : jsTruthy sa.metaDesc = true := by
    have : sa.metaDesc.data ≠ [] := by
      intro he
      have : sa.metaDesc.length = 0 := by
        show sa.metaDesc.data.length = 0
        simp [he]
      omega
    simpa [jsTruthy] using this
  have hbase : seoScoreBase sa wc = 100 := by
    unfold seoScoreBase
    rw [if_pos, if_pos, if_pos hh, if_pos ha, if_pos hw]
    · simp [hmtruthy, hm.1, hm.2]
    · simp [htruthy, ht.1, ht.2]
  unfold seoScore
  rw [hbase]
  dsimp only
  split <;> split <;> omega

/-! ### The per-page analyzer

`analyzePage` drives the external rendering session; the browser's behaviour
on one URL (navigation outcome, the static-extraction record, the
viewport-sweep outcome, the wall-clock response time, and the process-wide
spell-check capability) is modelled as an explicit environment.  A thrown JS
exception in a stage is an `Except.error` carrying its message. -/

structure ViewportIssue where
  viewport : String
  horizontalScroll : Bool
  overflowingElements : Nat
  smallTapTargets : Option Nat
  offendingElements : Option (List String)
  screenshotPath : Option String
deriving DecidableEq, Repr

structure UxIssues where
  missingAltTags : Nat
  emptyLinks : Nat
  hasViewport : Bool
  h1Count : Nat
deriving DecidableEq, Repr

structure VisualIssues where
  imagesMissingDimensions : Nat
  longWords : Nat
  viewportIssues : List ViewportIssue
deriving DecidableEq, Repr

structure ContentIssues where
  possibleTypos : List String
deriving DecidableEq, Repr

structure EeatSignals where
  hasAuthor : Bool
  hasDate : Bool
deriving DecidableEq, Repr

structure ContentQuality where
  longParagraphs : Nat
  textToCodeRatio : ℚ
deriving DecidableEq, Repr

structure ContentMetrics where
  wordCount : Nat
  readabilityScore : ℤ
  structureScore : Nat
  hasSchema : Bool
  seoScore : Nat
  aiScore : Nat
  headings : List Heading
  keywords : List Keyword
  paragraphCount : Nat
  schemaTypes : List String
  questionHeadings : Nat
  eeatSignals : EeatSignals
  contentQuality : ContentQuality
deriving DecidableEq, Repr

structure PageAnalysis where
  url : String
  title : String
  metaDescription : String
  h1 : Option String
  responseTime : Nat
  statusCode : Nat
  error : Option String
  links : List String
  uxIssues : UxIssues
  visualIssues : VisualIssues
  contentIssues : ContentIssues
  contentMetrics : Option ContentMetrics
deriving DecidableEq, Repr

/-- Outcome of `page.goto(url, …)` (together with any earlier failure of the
initial viewport setup): a response with `status()` (or `null`), a caught
`TimeoutError`, or any other thrown failure with its message. -/
inductive GotoResult where
  | success (status : Option Nat)
  | timeout
  | failure (msg : String)
deriving DecidableEq, Repr

structure PageEnv where
  goto : GotoResult
  responseTime : Nat
  spell : Option (String → Bool)
  staticAnalysis : Except String StaticAnalysis
  sweep : Except String (List ViewportIssue)

/-- `response.ok()` — status in the range 200–299. -/
def isOkStatus (s : Nat) : Bool := 200 ≤ s && s ≤ 299

/-- The degraded report shape shared by the non-ok-HTTP early return (with
the measured response time and status) and the catch-all handler (with
zeroes): empty extraction fields, no links, zeroed issue counts, no
content metrics. -/
def emptyReport (url : String) (responseTime statusCode : Nat)
    (err : String) : PageAnalysis where
  url := url
  title := ""
  metaDescription := ""
  h1 := none
  responseTime := responseTime
  statusCode := statusCode
  error := some err
  links := []
  uxIssues := ⟨0, 0, false, 0⟩
  visualIssues := ⟨0, 0, []⟩
  contentIssues := ⟨[]⟩
  contentMetrics := none

/-- The `contentMetrics` block assembled from the static extraction. -/
def contentMetricsOf (sa : StaticAnalysis) : ContentMetrics where
  wordCount := wordCount sa.textContent
  readabilityScore := readabilityScore sa.textContent
  structureScore := structureScore sa
  hasSchema := sa.hasSchema
  seoScore := seoScore sa (wordCount sa.textContent) (keywords sa.textContent)
  aiScore := aiScore sa (readabilityScore sa.textContent)
  headings := sa.headings
  keywords := keywords sa.textContent
  paragraphCount := sa.paragraphCount
  schemaTypes := sa.schemaTypes
  questionHeadings := questionHeadings sa.headings
  eeatSignals := ⟨sa.hasAuthor, sa.hasDate⟩
  contentQuality := ⟨sa.longParagraphs, textToCodeRatio sa⟩

/-- The successful-path report. -/
def fullReport (env : PageEnv) (url : String) (statusCode : Nat)
    (sa : StaticAnalysis) (vps : List ViewportIssue) : PageAnalysis where
  url := url
  title := sa.title
  metaDescription := sa.metaDesc
  h1 := sa.h1
  responseTime := env.responseTime
  statusCode := statusCode
  error := none
  links := sa.links
  uxIssues := ⟨sa.missingAltTags, sa.emptyLinks, sa.hasViewport, sa.h1Count⟩
  visualIssues := ⟨sa.imagesMissingDimensions, longWords sa.textContent, vps⟩
  contentIssues := ⟨possibleTypos env.spell sa.textContent⟩
  contentMetrics := some (contentMetricsOf sa)

/-- Static extraction, viewport sweep and content scoring, reached when the
load did not short-circuit; a thrown failure falls into the catch-all. -/
def analyzeRest (env : PageEnv) (url : String) (statusCode : Nat) : PageAnalysis :=
  match env.staticAnalysis with
  | .error msg => emptyReport url 0 0 msg
  | .ok sa =>
    match env.sweep with
    | .error msg => emptyReport url 0 0 msg
    | .ok vps => fullReport env url statusCode sa vps

/-- The whole `analyzePage(page, url)` protocol: navigate (timeout non-fatal,
`statusCode = 0` sentinel; response `null` also yields 0), short-circuit on a
non-ok response with `error = "HTTP {code}"`, otherwise run the remaining
stages; any thrown failure is converted into the catch-all report. -/
def analyzePage (env : PageEnv) (url : String) : PageAnalysis :=
  match env.goto with
  | .failure msg => emptyReport url 0 0 msg
  | .success (some s) =>
    if isOkStatus s then analyzeRest env url s
    else emptyReport url env.responseTime s (String.append "HTTP " (toString s))
  | .success none => analyzeRest env url 0
  | .timeout => analyzeRest env url 0

/-- The message thrown by the stages after the load, if any. -/
def restThrows (env : PageEnv) : Option String :=
  match env.staticAnalysis with
  | .error msg => some msg
  | .ok _ =>
    match env.sweep with
    | .error msg => some msg
    | .ok _ => none

/-- The message of the exception the per-page protocol would raise, if any:
a non-timeout navigation failure, or a thrown static extraction, or a thrown
viewport sweep (the non-ok early return throws nothing). -/
def envThrows (env : PageEnv) : Option String :=
  match env.goto with
  | .failure msg => some msg
  | .success (some s) => if isOkStatus s then restThrows env else none
  | _ => restThrows env

/-- The load produced a non-ok HTTP response (the only early-return path). -/
def loadErrorPath (env : PageEnv) : Bool :=
  match env.goto with
  | .success (some s) => !isOkStatus s
  | _ => false

theorem analyzeRest_url (env : PageEnv) (url : String) (sc : Nat) :
    (analyzeRest env url sc).url = url := by
  unfold analyzeRest
  rcases env.staticAnalysis with m | sa
  · rfl
  · rcases env.sweep with m | vps <;> rfl

theorem analyzeRest_throws (env : PageEnv) (url : String) (sc : Nat)
    (msg : String) (h : restThrows env = some msg) :
    analyzeRest env url sc = emptyReport url 0 0 msg := by
  unfold analyzeRest
  unfold restThrows at h
  cases hsa : env.staticAnalysis with
  | error m =>
    rw [hsa] at h
    injection h with h
    rw [h]
  | ok sa =>
    rw [hsa] at h
    cases hsw : env.sweep with
    | error m =>
      rw [hsw] at h
      injection h with h
      rw [h]
    | ok vps =>
      rw [hsw] at h
      exact absurd h (by simp)

theorem analyzeRest_contentMetrics (env : PageEnv) (url : String) (sc : Nat) :
    (analyzeRest env url sc).contentMetrics = none ↔
      (restThrows env).isSome = true := by
  unfold analyzeRest restThrows
  cases hsa : env.staticAnalysis with
  | error m => simp [emptyReport]
  | ok sa =>
    cases hsw : env.sweep with
    | error m => simp [emptyReport]
    | ok vps => simp [fullReport]

/-- C6: `analyzePage` is total toward the Frontier Controller — it always
returns a report for the requested URL, and any failure raised anywhere in
the per-page protocol (navigation failure other than the non-fatal timeout,
thrown static extraction, thrown viewport sweep) is converted into the
catch-all report whose `error` is the failure's message and whose extraction
fields, links and issue counts are all empty/zero. -/
theorem analyzePage_total (env : PageEnv) (url : String) :
    (analyzePage env url).url = url ∧
    (∀ msg, envThrows env = some msg →
      analyzePage env url = emptyReport url 0 0 msg) := by
  constructor
  · unfold analyzePage
    cases hg : env.goto with
    | success st =>
      cases st with
      | none => exact analyzeRest_url env url 0
      | some s =>
        dsimp only
        split
        · exact analyzeRest_url env url s
        · rfl
    | timeout => exact analyzeRest_url env url 0
    | failure m => rfl
  · intro msg hmsg
    unfold analyzePage
    unfold envThrows at hmsg
    cases hg : env.goto with
    | failure m =>
      rw [hg] at hmsg
      simp only at hmsg
      injection hmsg with hmsg
      rw [hmsg]
    | timeout =>
      rw [hg] at hmsg
      exact analyzeRest_throws env url 0 msg hmsg
    | success st =>
      cases st with
      | none =>
        rw [hg] at hmsg
        exact analyzeRest_throws env url 0 msg hmsg
      | some s =>
        rw [hg] at hmsg
        dsimp only at hmsg ⊢
        by_cases hos : isOkStatus s = true
        · rw [if_pos hos] at hmsg
          rw [if_pos hos]
          exact analyzeRest_throws env url s msg hmsg
        · rw [if_neg hos] at hmsg
          exact absurd hmsg (by simp)

/-- Witness for C6: a navigation failure with message
`net::ERR_CONNECTION_REFUSED` is converted into the catch-all report. -/
theorem analyzePage_total_witness :
    (analyzePage
      { goto := GotoResult.failure "net::ERR_CONNECTION_REFUSED"
        responseTime := 12
        spell := none
        staticAnalysis := Except.error "unused"
        sweep := Except.ok [] } "https://example.com/").url = "https://example.com/" ∧
    analyzePage
      { goto := GotoResult.failure "net::ERR_CONNECTION_REFUSED"
        responseTime := 12
        spell := none
        staticAnalysis := Except.error "unused"
        sweep := Except.ok [] } "https://example.com/" =
      emptyReport "https://example.com/" 0 0 "net::ERR_CONNECTION_REFUSED" :=
  ⟨(analyzePage_total _ "https://example.com/").1,
   (analyzePage_total _ "https://example.com/").2 "net::ERR_CONNECTION_REFUSED" rfl⟩

/-- C2: a navigation that yields a non-ok HTTP response short-circuits —
the report carries `error = "HTTP {code}"`, the response's status code, the
measured response time, and empty/zeroed extraction fields with no
`contentMetrics`; the result does not depend on the static-extraction,
viewport-sweep, or spell-check parts of the environment (those stages never
run). -/
theorem analyzePage_http_error (env : PageEnv) (url : String) (s : Nat)
    (hg : env.goto = GotoResult.success (some s)) (hs : isOkStatus s = false) :
    analyzePage env url =
      { url := url
        title := ""
        metaDescription := ""
        h1 := none
        responseTime := env.responseTime
        statusCode := s
        error := some (String.append "HTTP " (toString s))
        links := []
        uxIssues := ⟨0, 0, false, 0⟩
        visualIssues := ⟨0, 0, []⟩
        contentIssues := ⟨[]⟩
        contentMetrics := none } ∧
    (∀ sa vps spell,
      analyzePage (PageEnv.mk env.goto env.responseTime spell sa vps) url =
        analyzePage env url) := by
  constructor
  · unfold analyzePage
    rw [hg]
    dsimp only
    rw [if_neg (by rw [hs]; exact Bool.false_ne_true)]
    rfl
  · intro sa vps spell
    unfold analyzePage
    rw [hg]
    dsimp only
    rw [if_neg (by rw [hs]; exact Bool.false_ne_true),
      if_neg (by rw [hs]; exact Bool.false_ne_true)]

/-- Witness for C2: an HTTP 404 response yields the short-circuit report
with `statusCode = 404` and `error = "HTTP 404"`. -/
theorem analyzePage_http_error_witness :
    analyzePage
      { goto := GotoResult.success (some 404)
        responseTime := 37
        spell := none
        staticAnalysis := Except.error "unused"
        sweep := Except.error "unused" } "https://example.com/missing" =
      { url := "https://example.com/missing"
        title := ""
        metaDescription := ""
        h1 := none
        responseTime := 37
        statusCode := 404
        error := some "HTTP 404"
        links := []
        uxIssues := ⟨0, 0, false, 0⟩
        visualIssues := ⟨0, 0, []⟩
        contentIssues := ⟨[]⟩
        contentMetrics := none } :=
  (analyzePage_http_error _ "https://example.com/missing" 404 rfl (by decide)).1

/-- C3 (amended): `contentMetrics` is absent exactly when `analyzePage`
returns through an error path — a non-ok HTTP response or a caught
exception.  A load timeout alone is not such a path: analysis proceeds on
the partially rendered page and the report keeps its `contentMetrics`. -/
theorem contentMetrics_absence (env : PageEnv) (url : String) :
    (analyzePage env url).contentMetrics = none ↔
      (loadErrorPath env || (envThrows env).isSome) = true := by
  unfold analyzePage loadErrorPath envThrows
  cases hg : env.goto with
  | failure m => simp [emptyReport]
  | timeout => simpa using analyzeRest_contentMetrics env url 0
  | success st =>
    cases st with
    | none => simpa using analyzeRest_contentMetrics env url 0
    | some s =>
      dsimp only
      by_cases hos : isOkStatus s = true
      · rw [if_pos hos, if_pos hos]
        simp only [hos, Bool.not_true, Bool.false_or]
        exact analyzeRest_contentMetrics env url s
      · have hos' : isOkStatus s = false := by
          cases h : isOkStatus s
          · rfl
          · exact absurd h hos
        rw [if_neg hos, if_neg hos]
        simp [emptyReport, hos']

/-- A concrete page whose load times out but whose remaining stages succeed. -/
def demoStatic : StaticAnalysis where
  title := "Demo"
  metaDesc := ""
  h1 := none
  missingAltTags := 0
  emptyLinks := 0
  hasViewport := true
  h1Count := 0
  imagesMissingDimensions := 0
  textContent := "Hello world."
  links := []
  hasSchema := false
  structureCount := 0
  paragraphCount := 0
  headings := []
  longParagraphs := 0
  htmlSize := 100
  schemaTypes := []
  hasAuthor := false
  hasDate := false

def timeoutEnv : PageEnv where
  goto := GotoResult.timeout
  responseTime := 30000
  spell := none
  staticAnalysis := Except.ok demoStatic
  sweep := Except.ok []

/-- Counterexample to C3 as stated: after a load timeout (the
`statusCode = 0` sentinel) the analyzer proceeds, and the report *does*
carry `contentMetrics`. -/
theorem contentMetrics_present_after_timeout :
    (analyzePage timeoutEnv "https://example.com/slow").statusCode = 0 ∧
    (analyzePage timeoutEnv "https://example.com/slow").contentMetrics.isSome
      = true ∧
    (analyzePage timeoutEnv "https://example.com/slow").error = none :=
  ⟨rfl, rfl, rfl⟩

/-! ### The crawl frontier controller

`crawlSite` is an async generator; its model computes the completed crawl's
trace — the list of (dequeued URL, yielded report) pairs in yield order — from
an environment supplying the external collaborators: the WHATWG URL parser
(`new URL(s)` and `new URL(link, base)`, the latter already combined with the
serialize-and-reparse the source performs) and the per-URL analysis outcome
(the deterministic behaviour of `analyzePage` on this site).  `fuel` bounds
the number of loop iterations: `none` means the crawl did not complete within
`fuel` steps (or the start URL failed to parse), so every theorem about a
completed crawl assumes a `some` trace. -/

structure ResolvedUrl where
  href : String
  hostname : String
  protocol : String
deriving DecidableEq, Repr

structure CrawlOptions where
  maxPages : Nat
  maxDepth : Nat
deriving DecidableEq, Repr

structure CrawlEnv where
  parse : String → Option ResolvedUrl
  resolve : String → String → Option ResolvedUrl
  analyze : String → PageAnalysis

/-- `absoluteUrl.split('#')[0]` -/
def stripFragment (s : String) : String :=
  String.mk (s.data.takeWhile (fun c => c ≠ '#'))

/-- One link's admission check: resolve against the page's own URL (a
malformed link resolves to `none` and is discarded), require the start URL's
hostname exactly and an http/https scheme, strip the fragment, and reject
URLs already visited.  Returns the URL to enqueue, if any. -/
def admitLink (env : CrawlEnv) (dom : String) (visited : List String)
    (base link : String) : Option String :=
  match env.resolve link base with
  | none => none
  | some r =>
    if r.hostname = dom ∧ (r.protocol = "http:" ∨ r.protocol = "https:") then
      if stripFragment r.href ∈ visited then none
      else some (stripFragment r.href)
    else none

/-- The traversal loop: `while (queue.length > 0 && pagesCrawled < maxPages)`,
FIFO shift, skip-if-visited without counting, mark visited at dequeue, analyze,
yield, then — only when `depth < maxDepth` — push the admitted links at
`depth + 1`. -/
def crawlLoop (env : CrawlEnv) (dom : String) (opts : CrawlOptions) :
    Nat → List String → List (String × Nat) → Nat →
      Option (List (String × PageAnalysis))
  | 0, _, _, _ => none
  | _ + 1, _, [], _ => some []
  | fuel + 1, visited, (url, depth) :: rest, n =>
    if opts.maxPages ≤ n then some []
    else if url ∈ visited then crawlLoop env dom opts fuel visited rest n
    else
      let report := env.analyze url
      let fresh :=
        if depth < opts.maxDepth then
          (report.links.filterMap
            (admitLink env dom (url :: visited) url)).map (fun u => (u, depth + 1))
        else []
      (crawlLoop env dom opts fuel (url :: visited) (rest ++ fresh) (n + 1)).map
        (fun tr => (url, report) :: tr)

/-- `crawlSite(startUrl, options)`: parse the start URL to fix the allowed
domain, seed the frontier with `{url: startUrl, depth: 0}`, and run the loop. -/
def crawlSite (env : CrawlEnv) (startUrl : String) (opts : CrawlOptions)
    (fuel : Nat) : Option (List (String × PageAnalysis)) :=
  match env.parse startUrl with
  | none => none
  | some su => crawlLoop env su.hostname opts fuel [] [(startUrl, 0)] 0

theorem crawlLoop_length (env : CrawlEnv) (dom : String) (opts : CrawlOptions) :
    ∀ fuel (visited : List String) (queue : List (String × Nat)) (n : Nat)
      (trace : List (String × PageAnalysis)),
      crawlLoop env dom opts fuel visited queue n = some trace →
      trace.length ≤ opts.maxPages - n := by
  intro fuel
  induction fuel with
  | zero =>
    intro visited queue n trace h
    simp [crawlLoop] at h
  | succ fuel ih =>
    intro visited queue n trace h
    cases queue with
    | nil =>
      rw [crawlLoop] at h
      injection h with h
      simp [← h]
    | cons e rest =>
      obtain ⟨url, depth⟩ := e
      rw [crawlLoop] at h
      by_cases hcap : opts.maxPages ≤ n
      · rw [if_pos hcap] at h
        injection h with h
        simp [← h]
      · rw [if_neg hcap] at h
        by_cases hvis : url ∈ visited
        · rw [if_pos hvis] at h
          exact ih visited rest n trace h
        · rw [if_neg hvis] at h
          dsimp only at h
          rw [Option.map_eq_some'] at h
          obtain ⟨tr, htr, rfl⟩ := h
          have := ih _ _ _ _ htr
          simp only [List.length_cons]
          omega

theorem crawlLoop_urls (env : CrawlEnv) (dom : String) (opts : CrawlOptions) :
    ∀ fuel (visited : List String) (queue : List (String × Nat)) (n : Nat)
      (trace : List (String × PageAnalysis)),
      crawlLoop env dom opts fuel visited queue n = some trace →
      (trace.map Prod.fst).Nodup ∧ ∀ u ∈ trace.map Prod.fst, u ∉ visited := by
  intro fuel
  induction fuel with
  | zero =>
    intro visited queue n trace h
    simp [crawlLoop] at h
  | succ fuel ih =>
    intro visited queue n trace h
    cases queue with
    | nil =>
      rw [crawlLoop] at h
      injection h with h
      simp [← h]
    | cons e rest =>
      obtain ⟨url, depth⟩ := e
      rw [crawlLoop] at h
      by_cases hcap : opts.maxPages ≤ n
      · rw [if_pos hcap] at h
        injection h with h
        simp [← h]
      · rw [if_neg hcap] at h
        by_cases hvis2 : url ∈ visited
        · rw [if_pos hvis2] at h
          exact ih visited rest n trace h
        · rw [if_neg hvis2] at h
          dsimp only at h
          rw [Option.map_eq_some'] at h
          obtain ⟨tr, htr, rfl⟩ := h
          obtain ⟨hnd, hnv⟩ := ih _ _ _ _ htr
          have hurl : ∀ u ∈ tr.map Prod.fst, u ≠ url ∧ u ∉ visited := by
            intro u hu
            have := hnv u hu
            simp only [List.mem_cons, not_or] at this
            exact this
          refine ⟨?_, ?_⟩
          · simp only [List.map_cons, List.nodup_cons]
            exact ⟨fun hc => (hurl url hc).1 rfl, hnd⟩
          · intro u hu
            simp only [List.map_cons, List.mem_cons] at hu
            rcases hu with rfl | hu
            · exact hvis2
            · exact (hurl u hu).2

theorem stripFragment_no_hash (s : String) : '#' ∉ (stripFragment s).data := by
  intro hmem
  have := List.mem_takeWhile_imp hmem
  simp at this

theorem stripFragment_eq_self {s : String} (h : '#' ∉ s.data) :
    stripFragment s = s := by
  unfold stripFragment
  have : s.data.takeWhile (fun c => c ≠ '#') = s.data := by
    rw [List.takeWhile_eq_self_iff]
    intro c hc
    have : c ≠ '#' := fun he => h (he ▸ hc)
    simpa using this
  rw [this]

/-- What a successful admission means: a resolution with the allowed
hostname, an http/https scheme, the fragment-stripped serialisation, and
non-membership in the visited set. -/
theorem admitLink_eq_some (env : CrawlEnv) (dom : String) (visited : List String)
    (base link c : String) :
    admitLink env dom visited base link = some c ↔
      ∃ r, env.resolve link base = some r ∧ r.hostname = dom ∧
        (r.protocol = "http:" ∨ r.protocol = "https:") ∧
        c = stripFragment r.href ∧ c ∉ visited := by
  unfold admitLink
  cases hr : env.resolve link base with
  | none => simp
  | some r =>
    dsimp only
    by_cases hcond : r.hostname = dom ∧ (r.protocol = "http:" ∨ r.protocol = "https:")
    · rw [if_pos hcond]
      by_cases hvis : stripFragment r.href ∈ visited
      · rw [if_pos hvis]
        constructor
        · intro h
          exact absurd h (by simp)
        · rintro ⟨r', hr', hh, hp, rfl, hnv⟩
          obtain rfl : r = r' := Option.some.inj hr'
          exact absurd hvis hnv
      · rw [if_neg hvis]
        constructor
        · intro h
          have hc : stripFragment r.href = c := Option.some.inj h
          exact ⟨r, rfl, hcond.1, hcond.2, hc.symm, hc ▸ hvis⟩
        · rintro ⟨r', hr', hh, hp, rfl, hnv⟩
          obtain rfl : r = r' := Option.some.inj hr'
          rfl
    · rw [if_neg hcond]
      constructor
      · intro h
        exact absurd h (by simp)
      · rintro ⟨r', hr', hh, hp, _, _⟩
        obtain rfl : r = r' := Option.some.inj hr'
        exact absurd ⟨hh, hp⟩ hcond

/-- Properties of frontier entries preserved by link admission hold for every
analyzed page: each admitted link's entry at `depth + 1` inherits from its
parent's entry.  The conclusion existentially recovers the depth at which the
page was dequeued. -/
theorem crawlLoop_queue_invariant (env : CrawlEnv) (dom : String)
    (opts : CrawlOptions) (P : String × Nat → Prop)
    (hstep : ∀ (visited : List String) (url : String) (depth : Nat)
      (link c : String),
      P (url, depth) → depth < opts.maxDepth →
      link ∈ (env.analyze url).links →
      admitLink env dom visited url link = some c →
      P (c, depth + 1)) :
    ∀ fuel (visited : List String) (queue : List (String × Nat)) (n : Nat)
      (trace : List (String × PageAnalysis)),
      crawlLoop env dom opts fuel visited queue n = some trace →
      (∀ e ∈ queue, P e) →
      ∀ p ∈ trace, ∃ d, P (p.1, d) := by
  intro fuel
  induction fuel with
  | zero =>
    intro visited queue n trace h
    simp [crawlLoop] at h
  | succ fuel ih =>
    intro visited queue n trace h hq
    cases queue with
    | nil =>
      rw [crawlLoop] at h
      injection h with h
      simp [← h]
    | cons e rest =>
      obtain ⟨url, depth⟩ := e
      rw [crawlLoop] at h
      by_cases hcap : opts.maxPages ≤ n
      · rw [if_pos hcap] at h
        injection h with h
        simp [← h]
      · rw [if_neg hcap] at h
        by_cases hvis : url ∈ visited
        · rw [if_pos hvis] at h
          exact ih visited rest n trace h
            (fun e he => hq e (List.mem_cons_of_mem _ he))
        · rw [if_neg hvis] at h
          dsimp only at h
          rw [Option.map_eq_some'] at h
          obtain ⟨tr, htr, rfl⟩ := h
          have hhead : P (url, depth) := hq _ (List.mem_cons_self _ _)
          intro p hp
          rcases List.mem_cons.mp hp with rfl | hp
          · exact ⟨depth, hhead⟩
          · refine ih _ _ _ _ htr ?_ p hp
            intro e he
            rcases List.mem_append.mp he with he | he
            · exact hq e (List.mem_cons_of_mem _ he)
            · by_cases hdep : depth < opts.maxDepth
              · rw [if_pos hdep] at he
                rw [List.mem_map] at he
                obtain ⟨c, hc, rfl⟩ := he
                rw [List.mem_filterMap] at hc
                obtain ⟨link, hlink, hadm⟩ := hc
                exact hstep _ url depth link c hhead hdep hlink hadm
              · rw [if_neg hdep] at he
                exact absurd he (List.not_mem_nil _)

/-- C1 (amended): a completed crawl yields at most `maxPages` reports and
never analyzes the same URL string twice (the visited set is checked, and the
URL marked, at dequeue time); when the start URL carries no fragment, every
analyzed URL is fragment-free, so uniqueness also holds for the
fragment-stripped forms.  (As originally stated the fragment-stripped
uniqueness fails for a start URL with a fragment — see the counterexample.) -/
theorem crawl_admission (env : CrawlEnv) (startUrl : String)
    (opts : CrawlOptions) (fuel : Nat) (trace : List (String × PageAnalysis))
    (h : crawlSite env startUrl opts fuel = some trace) :
    trace.length ≤ opts.maxPages ∧
    (trace.map Prod.fst).Nodup ∧
    ('#' ∉ startUrl.data →
      ((trace.map Prod.fst).map stripFragment).Nodup) := by
  unfold crawlSite at h
  cases hp : env.parse startUrl with
  | none =>
    rw [hp] at h
    exact absurd h (by simp)
  | some su =>
    rw [hp] at h
    refine ⟨?_, ?_, ?_⟩
    · have := crawlLoop_length env su.hostname opts fuel [] [(startUrl, 0)] 0
        trace h
      omega
    · exact (crawlLoop_urls env su.hostname opts fuel [] [(startUrl, 0)] 0
        trace h).1
    · intro hfree
      have hfrag : ∀ u ∈ trace.map Prod.fst, '#' ∉ u.data := by
        intro u hu
        rw [List.mem_map] at hu
        obtain ⟨p, hp2, rfl⟩ := hu
        obtain ⟨d, hd⟩ := crawlLoop_queue_invariant env su.hostname opts
          (fun e => '#' ∉ e.1.data)
          (fun visited url depth link c _ _ _ hadm => by
            rw [admitLink_eq_some] at hadm
            obtain ⟨r, _, _, _, rfl, _⟩ := hadm
            exact stripFragment_no_hash r.href)
          fuel [] [(startUrl, 0)] 0 trace h
          (by
            intro e he
            rcases List.mem_cons.mp he with rfl | he
            · exact hfree
            · exact absurd he (List.not_mem_nil _))
          p hp2
        exact hd
      have hmap : (trace.map Prod.fst).map stripFragment = trace.map Prod.fst := by
        have := List.map_congr_left
          (fun u hu => (stripFragment_eq_self (hfrag u hu) : stripFragment u = id u))
        rw [this]
        simp
      rw [hmap]
      exact (crawlLoop_urls env su.hostname opts fuel [] [(startUrl, 0)] 0
        trace h).1

/-- `u` is the fragment-stripped serialisation of some link resolution whose
hostname is the allowed domain and whose scheme is http or https — the only
way a URL other than the start URL can enter the frontier. -/
def fromAdmittedLink (env : CrawlEnv) (dom u : String) : Prop :=
  ∃ link base r, env.resolve link base = some r ∧ r.hostname = dom ∧
    (r.protocol = "http:" ∨ r.protocol = "https:") ∧ u = stripFragment r.href

/-- C4: link admission requires exact hostname match against the start URL's
hostname, an http/https scheme, and absence from the visited set, after
fragment stripping; a malformed link (failed resolution) is skipped without
affecting the rest of the page's links; and every analyzed URL is either the
start URL or arose from an admitted same-domain resolution — so cross-domain
links never produce a report. -/
theorem crawl_domain_confinement (env : CrawlEnv) (startUrl : String)
    (opts : CrawlOptions) (fuel : Nat) (su : ResolvedUrl)
    (trace : List (String × PageAnalysis))
    (hp : env.parse startUrl = some su)
    (h : crawlSite env startUrl opts fuel = some trace) :
    (∀ (visited : List String) (base link c : String),
      admitLink env su.hostname visited base link = some c ↔
        ∃ r, env.resolve link base = some r ∧ r.hostname = su.hostname ∧
          (r.protocol = "http:" ∨ r.protocol = "https:") ∧
          c = stripFragment r.href ∧ c ∉ visited) ∧
    (∀ (visited : List String) (base link : String) (ls₁ ls₂ : List String),
      env.resolve link base = none →
      (ls₁ ++ link :: ls₂).filterMap (admitLink env su.hostname visited base) =
        (ls₁ ++ ls₂).filterMap (admitLink env su.hostname visited base)) ∧
    (∀ p ∈ trace, p.1 = startUrl ∨ fromAdmittedLink env su.hostname p.1) := by
  unfold crawlSite at h
  rw [hp] at h
  refine ⟨fun visited base link c => admitLink_eq_some env su.hostname visited
    base link c, ?_, ?_⟩
  · intro visited base link ls₁ ls₂ hnone
    have hskip : admitLink env su.hostname visited base link = none := by
      unfold admitLink
      rw [hnone]
    simp [List.filterMap_append, List.filterMap_cons, hskip]
  · intro p hptr
    obtain ⟨d, hd⟩ := crawlLoop_queue_invariant env su.hostname opts
      (fun e => e.1 = startUrl ∨ fromAdmittedLink env su.hostname e.1)
      (fun visited url depth link c _ _ _ hadm => by
        rw [admitLink_eq_some] at hadm
        obtain ⟨r, hres, hh, hproto, rfl, _⟩ := hadm
        exact Or.inr ⟨link, url, r, hres, hh, hproto, rfl⟩)
      fuel [] [(startUrl, 0)] 0 trace h
      (by
        intro e he
        rcases List.mem_cons.mp he with rfl | he
        · exact Or.inl rfl
        · exact absurd he (List.not_mem_nil _))
      p hptr
    exact hd

/-- Reachability from the start URL in at most `d` admission steps: each step
follows a link of the analyzed parent page whose resolution keeps the allowed
hostname and an http/https scheme. -/
inductive ReachLe (env : CrawlEnv) (dom startUrl : String) : Nat → String → Prop
  | refl (d : Nat) : ReachLe env dom startUrl d startUrl
  | step {d : Nat} {p u : String} :
      ReachLe env dom startUrl d p →
      (∃ link r, link ∈ (env.analyze p).links ∧ env.resolve link p = some r ∧
        r.hostname = dom ∧ (r.protocol = "http:" ∨ r.protocol = "https:") ∧
        u = stripFragment r.href) →
      ReachLe env dom startUrl (d + 1) u

theorem ReachLe.mono {env : CrawlEnv} {dom startUrl : String} {d d' : Nat}
    {u : String} (h : ReachLe env dom startUrl d u) (hle : d ≤ d') :
    ReachLe env dom startUrl d' u := by
  induction h generalizing d' with
  | refl d => exact ReachLe.refl d'
  | @step d p u hp hlink ih =>
    cases d' with
    | zero => omega
    | succ d'' => exact ReachLe.step (ih (by omega)) hlink

/-- C5: links are enqueued only from a page dequeued at depth strictly below
`maxDepth`, and always at `depth + 1`; consequently every analyzed page is
reachable from the start URL by a chain of at most `maxDepth` admitted links,
so no page whose only link paths are longer than `maxDepth` is ever
analyzed. -/
theorem crawl_depth_bound (env : CrawlEnv) (startUrl : String)
    (opts : CrawlOptions) (fuel : Nat) (su : ResolvedUrl)
    (trace : List (String × PageAnalysis))
    (hp : env.parse startUrl = some su)
    (h : crawlSite env startUrl opts fuel = some trace) :
    ∀ p ∈ trace, ReachLe env su.hostname startUrl opts.maxDepth p.1 := by
  unfold crawlSite at h
  rw [hp] at h
  intro p hptr
  obtain ⟨d, hd⟩ := crawlLoop_queue_invariant env su.hostname opts
    (fun e => e.2 ≤ opts.maxDepth ∧
      ReachLe env su.hostname startUrl e.2 e.1)
    (fun visited url depth link c hP hdep hlink hadm => by
      rw [admitLink_eq_some] at hadm
      obtain ⟨r, hres, hh, hproto, rfl, _⟩ := hadm
      exact ⟨by omega, ReachLe.step hP.2 ⟨link, r, hlink, hres, hh, hproto, rfl⟩⟩)
    fuel [] [(startUrl, 0)] 0 trace h
    (by
      intro e he
      rcases List.mem_cons.mp he with rfl | he
      · exact ⟨Nat.zero_le _, ReachLe.refl 0⟩
      · exact absurd he (List.not_mem_nil _))
    p hptr
  exact hd.2.mono hd.1

/-- A minimal report carrying only outbound links, as the analysis outcome of
the concrete crawl environments below. -/
def plainReport (links : List String) : PageAnalysis where
  url := ""
  title := ""
  metaDescription := ""
  h1 := none
  responseTime := 0
  statusCode := 200
  error := none
  links := links
  uxIssues := ⟨0, 0, false, 0⟩
  visualIssues := ⟨0, 0, []⟩
  contentIssues := ⟨[]⟩
  contentMetrics := none

/-- A site whose start URL carries a fragment and whose front page links to
its own fragment-free form. -/
def fragEnv : CrawlEnv where
  parse := fun s =>
    if s = "https://ex.test/#top" then
      some ⟨"https://ex.test/#top", "ex.test", "https:"⟩
    else none
  resolve := fun link _ =>
    if link = "https://ex.test/" then
      some ⟨"https://ex.test/", "ex.test", "https:"⟩
    else none
  analyze := fun u =>
    plainReport (if u = "https://ex.test/#top" then ["https://ex.test/"] else [])

/-- Counterexample to C1 as stated: starting the crawl at
`https://ex.test/#top` (seeded unstripped) and following the page's link to
`https://ex.test/` analyzes two URLs with the same fragment-stripped form. -/
theorem crawl_fragment_counterexample :
    (crawlSite fragEnv "https://ex.test/#top" ⟨2, 1⟩ 5).map
        (fun tr => (tr.map Prod.fst).map stripFragment) =
      some ["https://ex.test/", "https://ex.test/"] ∧
    ¬ (["https://ex.test/", "https://ex.test/"] : List String).Nodup := by
  constructor
  · rfl
  · simp

/-- A one-page site used to instantiate the crawl theorems. -/
def simpleEnv : CrawlEnv where
  parse := fun _ => some ⟨"https://one.test/", "one.test", "https:"⟩
  resolve := fun _ _ => none
  analyze := fun _ => plainReport []

/-- Witness for C1 at a completed one-page crawl. -/
theorem crawl_admission_witness :
    ([("https://one.test/", plainReport [])] :
      List (String × PageAnalysis)).length ≤ 1 ∧
    (([("https://one.test/", plainReport [])] :
      List (String × PageAnalysis)).map Prod.fst).Nodup ∧
    ('#' ∉ "https://one.test/".data →
      ((([("https://one.test/", plainReport [])] :
        List (String × PageAnalysis)).map Prod.fst).map stripFragment).Nodup) :=
  crawl_admission simpleEnv "https://one.test/" ⟨1, 2⟩ 3 _ rfl

/-- Witness for C4: the start URL's own report is accounted for by the
provenance disjunction. -/
theorem crawl_domain_confinement_witness :
    ("https://one.test/", plainReport []).1 = "https://one.test/" ∨
      fromAdmittedLink simpleEnv "one.test"
        ("https://one.test/", plainReport []).1 :=
  (crawl_domain_confinement simpleEnv "https://one.test/" ⟨1, 2⟩ 3
      ⟨"https://one.test/", "one.test", "https:"⟩
      [("https://one.test/", plainReport [])] rfl rfl).2.2
    ("https://one.test/", plainReport []) (List.mem_singleton.mpr rfl)

/-- Witness for C5: the analyzed start page is reachable within `maxDepth`. -/
theorem crawl_depth_bound_witness :
    ReachLe simpleEnv "one.test" "https://one.test/" 2 "https://one.test/" :=
  crawl_depth_bound simpleEnv "https://one.test/" ⟨1, 2⟩ 3
      ⟨"https://one.test/", "one.test", "https:"⟩
      [("https://one.test/", plainReport [])] rfl rfl
    ("https://one.test/", plainReport []) (List.mem_singleton.mpr rfl)

/-- Witness for C8 at a concrete page: a 25-character title, an
80-character meta description, an H1, no missing alts, 350 words. -/
theorem seoScore_ge_80_witness :
    80 ≤ seoScore
      { title := "Great Product Page Title!"
        metaDesc := "A concise meta description of eighty characters that fits the advised length.--"
        h1 := some "Welcome"
        missingAltTags := 0
        emptyLinks := 0
        hasViewport := true
        h1Count := 1
        imagesMissingDimensions := 0
        textContent := ""
        links := []
        hasSchema := false
        structureCount := 0
        paragraphCount := 1
        headings := [⟨"H1", "Welcome"⟩]
        longParagraphs := 0
        htmlSize := 1000
        schemaTypes := []
        hasAuthor := false
        hasDate := false } 350 [] :=
  seoScore_ge_80 _ 350 []
    (by constructor <;> decide) (by constructor <;> decide)
    (by decide) rfl (by decide)

end Crawler
